import Mathlib

/-
Verification development for the python-maker-bot repository.

The Rust sources are shallowly embedded as executable Lean definitions:
  * utils.rs      : extract_python_code, extract_imports, is_stdlib
  * python_exec.rs: detect_dependencies, write_and_run_with_mode (script
                    filename derivation), execute_script (interpreter
                    fallback), ExecutionMode, CodeExecutionResult
  * api.rs        : Message, ChatRequest, generate_code_with_history
  * interface.rs  : the body of the start_repl loop (one iteration),
                    session metrics updates, history rollback
External effects (the network, the filesystem, the subprocess spawns,
stdin prompts) are passed in as explicit oracle functions, so an iteration
of the interactive loop is a pure state-transition function.
-/

/- ===================== character / string utilities ===================== -/

/-- The backtick character (code point 96), written via `Char.ofNat`. -/
def btChar : Char := Char.ofNat 96

/-- ASCII whitespace as matched by the regex class `\s` and trimmed by
Rust `str::trim`: space, tab, newline, carriage return, vertical tab,
form feed.  (Both also accept further Unicode whitespace; no claim
exercises non-ASCII whitespace, and the development uses this single
class consistently on both sides.) -/
def wsChar (c : Char) : Bool :=
  c = ' ' || c = '\t' || c = '\n' || c = '\r' || c = Char.ofNat 11 || c = Char.ofNat 12

/-- Rust `str::trim` on a character list: drop leading and trailing
whitespace. -/
def trimChars (l : List Char) : List Char :=
  (((l.dropWhile wsChar).reverse).dropWhile wsChar).reverse

/-- Rust `str::trim().to_string()`. -/
def rustTrim (s : String) : String :=
  String.mk (trimChars s.data)

/-- Rust `str::contains(pat)`: `pat` occurs as a contiguous substring. -/
def hasSubstr (pat : List Char) : List Char → Bool
  | [] => pat.isEmpty
  | c :: rest => pat.isPrefixOf (c :: rest) || hasSubstr pat rest

/-- Rust `String::contains(&str)`: `hasSubstr` lifted to `String`. -/
def hasSubstrStr (pat s : String) : Bool :=
  hasSubstr pat.data s.data

/-- Rust `str::starts_with`. -/
def strStarts (pat s : String) : Bool :=
  pat.data.isPrefixOf s.data

/-- Every character of the list is whitespace. -/
def allWs (l : List Char) : Prop := ∀ c ∈ l, wsChar c = true

/- ===================== utils.rs: extract_python_code ===================== -/

/-- Three backticks — the fence delimiter of the regex
```(?:python)?\s*\n([\s\S]*?)\n``` in utils.rs. -/
def bt3 : List Char := [btChar, btChar, btChar]

/-- The literal `python` of the optional language tag `(?:python)?`. -/
def pythonTag : List Char := ['p', 'y', 't', 'h', 'o', 'n']

/-- The closing delimiter `\n```` ` of the regex. -/
def closePat : List Char := '\n' :: bt3

/-- The lazy capture group `([\s\S]*?)` followed by the closing `\n```` `:
returns the (shortest) text before the first occurrence of the closing
delimiter, or `none` if the delimiter never occurs. -/
def findBody : List Char → Option (List Char)
  | [] => none
  | c :: rest =>
    if closePat.isPrefixOf (c :: rest) then some []
    else (findBody rest).map (c :: ·)

/-- The regex fragment `\s*\n` followed by the lazy body, with the
backtracking of the Rust regex engine: `\s*` greedily consumes
whitespace, and on failure of the continuation backtracks so that the
mandatory `\n` matches the last consumed whitespace character. -/
def tryTail : List Char → Option (List Char)
  | [] => none
  | c :: rest =>
    if wsChar c then
      match tryTail rest with
      | some b => some b
      | none => if c = '\n' then findBody rest else none
    else none

/-- One match attempt of ```(?:python)?\s*\n([\s\S]*?)\n``` at the head
of the list, with leftmost-first (Perl-like) alternation: the optional
`python` tag is preferred, and on failure of its continuation the empty
alternative is tried. -/
def tryOpen (s : List Char) : Option (List Char) :=
  match s with
  | a :: b :: c :: rest =>
    if a = btChar ∧ b = btChar ∧ c = btChar then
      match (if pythonTag.isPrefixOf rest then tryTail (rest.drop 6) else none) with
      | some b => some b
      | none => tryTail rest
    else none
  | _ => none

/-- Rust `Regex::captures`: the match attempt is made at each start
position from left to right; the first position with a match wins. -/
def scanBlocks : List Char → Option (List Char)
  | [] => none
  | c :: rest =>
    match tryOpen (c :: rest) with
    | some b => some b
    | none => scanBlocks rest

/-- utils.rs `extract_python_code`: if the code-block regex matches, the
first capture group trimmed; otherwise the whole response trimmed. -/
def extract_python_code (response : String) : String :=
  match scanBlocks response.data with
  | some b => String.mk (trimChars b)
  | none => rustTrim response

/- ===================== utils.rs: extract_imports / is_stdlib ===================== -/

/-- The regex class `[a-zA-Z_]`. -/
def identStart (c : Char) : Bool := c.isAlpha || c = '_'

/-- The regex class `[a-zA-Z0-9_]`. -/
def identChar (c : Char) : Bool := c.isAlphanum || c = '_'

/-- The capture `([a-zA-Z_][a-zA-Z0-9_]*)` at the head of the list: the
greedily matched identifier together with the rest of the list. -/
def parseIdentSplit (l : List Char) : Option (List Char × List Char) :=
  match l with
  | c :: rest =>
    if identStart c then some (c :: rest.takeWhile identChar, rest.dropWhile identChar)
    else none
  | [] => none

/-- The regex `^import\s+([a-zA-Z_][a-zA-Z0-9_]*)` applied to a trimmed
line: on a match, the captured package name. -/
def importCapture (l : List Char) : Option (List Char) :=
  if "import".data.isPrefixOf l then
    match l.drop 6 with
    | c :: rest =>
      if wsChar c then (parseIdentSplit ((c :: rest).dropWhile wsChar)).map Prod.fst
      else none
    | [] => none
  else none

/-- The regex `^from\s+([a-zA-Z_][a-zA-Z0-9_]*)\s+import` applied to a
trimmed line: on a match, the captured package name.  Note the regex has
no trailing boundary, so `import` need only be a prefix of what follows
the second whitespace run. -/
def fromCapture (l : List Char) : Option (List Char) :=
  if "from".data.isPrefixOf l then
    match l.drop 4 with
    | c :: rest =>
      if wsChar c then
        match parseIdentSplit ((c :: rest).dropWhile wsChar) with
        | some (ident, after) =>
          match after with
          | c2 :: rest2 =>
            if wsChar c2 then
              if "import".data.isPrefixOf ((c2 :: rest2).dropWhile wsChar) then some ident
              else none
            else none
          | [] => none
        | none => none
      else none
    | [] => none
  else none

/-- Split on newline characters.  Rust `str::lines` additionally drops a
final empty segment (and a trailing `\r`, which line-trimming removes
anyway); an empty segment matches neither import pattern, so the
collected imports agree. -/
def splitLines : List Char → List (List Char)
  | [] => [[]]
  | c :: rest =>
    if c = '\n' then [] :: splitLines rest
    else
      match splitLines rest with
      | l :: ls => (c :: l) :: ls
      | [] => [[c]]

/-- Lexicographic comparison of character lists by code point — the
order `Ord for String` uses in Rust (UTF-8 byte order and code-point
order agree). -/
def listCharLe : List Char → List Char → Bool
  | [], _ => true
  | _ :: _, [] => false
  | a :: as, b :: bs =>
    if a.toNat < b.toNat then true
    else if b.toNat < a.toNat then false
    else listCharLe as bs

/-- The `String` order used by `Vec::<String>::sort`. -/
def strLe (a b : String) : Bool := listCharLe a.data b.data

/-- Insertion into a sorted list by the lexicographic `String` order. -/
def insertStr (a : String) : List String → List String
  | [] => [a]
  | b :: t => if strLe a b then a :: b :: t else b :: insertStr a t

/-- Rust `Vec::sort` (the sorted result is unique for `String`, so the
sorting algorithm is immaterial). -/
def sortStrs : List String → List String
  | [] => []
  | a :: t => insertStr a (sortStrs t)

/-- Rust `Vec::dedup`: remove consecutive duplicates. -/
def dedupConsec : List String → List String
  | [] => []
  | [a] => [a]
  | a :: b :: t => if a = b then dedupConsec (b :: t) else a :: dedupConsec (b :: t)

/-- utils.rs `extract_imports`: per line (trimmed), collect the captures
of the two import regexes, then sort and remove duplicates. -/
def extract_imports (code : String) : List String :=
  let caps := ((splitLines code.data).map (fun line =>
    let t := trimChars line
    (importCapture t).toList ++ (fromCapture t).toList)).flatten
  dedupConsec (sortStrs (caps.map String.mk))

/-- utils.rs `is_stdlib`: the fixed table STDLIB_MODULES. -/
def stdlibModules : List String :=
  ["abc", "aifc", "argparse", "array", "ast", "asynchat", "asyncio", "asyncore",
   "atexit", "audioop", "base64", "bdb", "binascii", "binhex", "bisect", "builtins",
   "bz2", "calendar", "cgi", "cgitb", "chunk", "cmath", "cmd", "code", "codecs",
   "codeop", "collections", "colorsys", "compileall", "concurrent", "configparser",
   "contextlib", "contextvars", "copy", "copyreg", "crypt", "csv", "ctypes", "curses",
   "dataclasses", "datetime", "dbm", "decimal", "difflib", "dis", "distutils", "doctest",
   "email", "encodings", "enum", "errno", "faulthandler", "fcntl", "filecmp", "fileinput",
   "fnmatch", "fractions", "ftplib", "functools", "gc", "getopt", "getpass", "gettext",
   "glob", "graphlib", "grp", "gzip", "hashlib", "heapq", "hmac", "html", "http", "idlelib",
   "imaplib", "imghdr", "imp", "importlib", "inspect", "io", "ipaddress", "itertools",
   "json", "keyword", "lib2to3", "linecache", "locale", "logging", "lzma", "mailbox",
   "mailcap", "marshal", "math", "mimetypes", "mmap", "modulefinder", "msilib", "msvcrt",
   "multiprocessing", "netrc", "nis", "nntplib", "numbers", "operator", "optparse", "os",
   "ossaudiodev", "parser", "pathlib", "pdb", "pickle", "pickletools", "pipes", "pkgutil",
   "platform", "plistlib", "poplib", "posix", "posixpath", "pprint", "profile", "pstats",
   "pty", "pwd", "py_compile", "pyclbr", "pydoc", "queue", "quopri", "random", "re",
   "readline", "reprlib", "resource", "rlcompleter", "runpy", "sched", "secrets", "select",
   "selectors", "shelve", "shlex", "shutil", "signal", "site", "smtpd", "smtplib", "sndhdr",
   "socket", "socketserver", "spwd", "sqlite3", "ssl", "stat", "statistics", "string",
   "stringprep", "struct", "subprocess", "sunau", "symbol", "symtable", "sys", "sysconfig",
   "syslog", "tabnanny", "tarfile", "telnetlib", "tempfile", "termios", "test", "textwrap",
   "threading", "time", "timeit", "tkinter", "token", "tokenize", "tomllib", "trace",
   "traceback", "tracemalloc", "tty", "turtle", "turtledemo", "types", "typing", "unicodedata",
   "unittest", "urllib", "uu", "uuid", "venv", "warnings", "wave", "weakref", "webbrowser",
   "winreg", "winsound", "wsgiref", "xdrlib", "xml", "xmlrpc", "zipapp", "zipfile", "zipimport",
   "zlib", "_thread"]

/-- utils.rs `is_stdlib`. -/
def is_stdlib (package : String) : Bool :=
  stdlibModules.contains package

/- ===================== python_exec.rs ===================== -/

/-- python_exec.rs `ExecutionMode`. -/
inductive ExecutionMode where
  | captured
  | interactive
deriving DecidableEq

/-- python_exec.rs `CodeExecutionResult` (paths as strings). -/
structure CodeExecutionResult where
  script_path : String
  stdout : String
  stderr : String
  exit_code : Option Int
deriving DecidableEq

/-- python_exec.rs `detect_dependencies`: imports that are not in the
standard-library table. -/
def detect_dependencies (code : String) : List String :=
  (extract_imports code).filter (fun pkg => !(is_stdlib pkg))

/-- The completed process of a successful spawn: captured output streams
(already lossily decoded) and the exit code (`none` = killed by signal). -/
structure SpawnOutput where
  stdout : String
  stderr : String
  exitCode : Option Int

/-- The candidate interpreter list of execute_script. -/
def python_cmds : List String := ["python3", "python"]

/-- The error message recorded for a failed spawn, per mode
(python_exec.rs lines 172-176 and 196-200). -/
def spawnErrorMsg (mode : ExecutionMode) (cmd e : String) : String :=
  match mode with
  | .interactive => "Failed to spawn interactive process with `" ++ cmd ++ "`: " ++ e
  | .captured => "Failed with command `" ++ cmd ++ "`: " ++ e

/-- The `CodeExecutionResult` built from a completed process, per mode:
captured mode records the buffered streams, interactive mode records a
placeholder stdout and an empty stderr (python_exec.rs lines 160-194). -/
def mkExecResult (mode : ExecutionMode) (path : String) (out : SpawnOutput) : CodeExecutionResult :=
  match mode with
  | .captured => ⟨path, out.stdout, out.stderr, out.exitCode⟩
  | .interactive => ⟨path, "[Interactive mode - output displayed directly]", "", out.exitCode⟩

/-- The candidate loop of execute_script, carrying `last_err`.  `spawn`
is the operating-system oracle: for an interpreter name, either the
completed process of a successful spawn or the spawn error. -/
def executeScriptGo (spawn : String → Except String SpawnOutput) (mode : ExecutionMode)
    (path : String) : List String → Option String → Except String CodeExecutionResult
  | [], lastErr => .error (lastErr.getD "Could not execute the script with python/python3")
  | cmd :: rest, _lastErr =>
    match spawn cmd with
    | .ok out => .ok (mkExecResult mode path out)
    | .error e => executeScriptGo spawn mode path rest (some (spawnErrorMsg mode cmd e))

/-- python_exec.rs `execute_script`: try `python3` then `python`; the
first successful spawn wins, a spawn failure advances to the next
candidate, and if all fail the last recorded error is returned. -/
def execute_script (spawn : String → Except String SpawnOutput) (mode : ExecutionMode)
    (path : String) : Except String CodeExecutionResult :=
  executeScriptGo spawn mode path python_cmds none

/-- Decimal digits, zero-padded to width 2 (chrono `%m %d %H %M %S`). -/
def pad2 (n : Nat) : String :=
  if n < 10 then "0" ++ toString n else toString n

/-- Decimal digits, zero-padded to width 4 (chrono `%Y`, for years in
the range the program can observe). -/
def pad4 (n : Nat) : String :=
  if n < 10 then "000" ++ toString n
  else if n < 100 then "00" ++ toString n
  else if n < 1000 then "0" ++ toString n
  else toString n

/-- Proleptic-Gregorian date from a count of days since 1970-01-01
(valid for all instants `Utc::now` can return, which are ≥ the epoch);
the standard civil-from-days computation. -/
def civilFromDays (days : Nat) : Nat × Nat × Nat :=
  let z := days + 719468
  let era := z / 146097
  let doe := z % 146097
  let yoe := (doe - doe / 1460 + doe / 36524 - doe / 146096) / 365
  let y := yoe + era * 400
  let doy := doe - (365 * yoe + yoe / 4 - yoe / 100)
  let mp := (5 * doy + 2) / 153
  let d := doy - (153 * mp + 2) / 5 + 1
  let m := if mp < 10 then mp + 3 else mp - 9
  (if m ≤ 2 then y + 1 else y, m, d)

/-- chrono `Utc::now().format("%Y%m%d_%H%M%S")` as a function of the
whole second: the sub-second part of the instant is discarded by the
format string. -/
def formatTimestamp (secs : Nat) : String :=
  let days := secs / 86400
  let rem := secs % 86400
  let ymd := civilFromDays days
  pad4 ymd.1 ++ pad2 ymd.2.1 ++ pad2 ymd.2.2 ++ "_" ++
    pad2 (rem / 3600) ++ pad2 ((rem % 3600) / 60) ++ pad2 (rem % 60)

/-- python_exec.rs `write_and_run_with_mode` lines 122-125: the script
filename derived from the current instant, given in nanoseconds since
the Unix epoch (`Utc::now` carries nanosecond precision; the format
keeps only whole seconds). -/
def scriptFilename (nanos : Nat) : String :=
  "script_" ++ formatTimestamp (nanos / 1000000000) ++ ".py"

/-- The full path `self.base_dir.join(filename)` the code is written to
(`fs::write` then creates or truncates-and-overwrites that path). -/
def scriptPath (baseDir : String) (nanos : Nat) : String :=
  baseDir ++ "/" ++ scriptFilename nanos

/- ===================== api.rs ===================== -/

/-- api.rs `Message`. -/
structure Message where
  role : String
  content : String
deriving DecidableEq

/-- The fixed system instruction synthesized at the head of every
request (api.rs lines 40-79).  Only its role and its fixedness matter to
any claim; the remainder of the long English instruction text is
abbreviated here. -/
def systemMessage : Message :=
  ⟨"system",
   "You are an expert Python code generator. Generate clean, well-commented, " ++
   "COMPLETE and POLISHED executable Python code based on user requests."⟩

/-- api.rs `ChatRequest` (the request body).  The f32 temperature 0.2 is
modelled as its decimal literal. -/
structure ChatRequest where
  model : String
  messages : List Message
  maxTokens : Option Nat
  temperature : Option String
deriving DecidableEq

/-- The request body built by generate_code_with_history (api.rs lines
84-89): the system message, then the caller-supplied history in order. -/
def mkChatRequest (messages : List Message) : ChatRequest :=
  { model := "Qwen/Qwen2.5-Coder-7B-Instruct"
    messages := systemMessage :: messages
    maxTokens := some 8192
    temperature := some "0.2" }

/-- The outcome of the HTTP POST, as an oracle result: a transport-level
failure (connection error or timeout), or a status code with the
response body text. -/
inductive NetOutcome where
  | transportErr (msg : String)
  | response (status : Nat) (body : String)

/-- api.rs `Choice`. -/
structure Choice where
  message : Message

/-- api.rs `ChatResponse`. -/
structure ChatResponse where
  choices : List Choice

/-- The failure channel of generate_code_with_history (anyhow errors,
made into a sum). -/
inductive GenError where
  | configMissingToken
  | transport (msg : String)
  | httpError (status : Nat) (body : String)
  | parseError
  | noChoices
deriving DecidableEq

/-- api.rs lines 109-128: status check, JSON parse (the serde_json parse
is the `parse` oracle), first choice extraction. -/
def processResponse (parse : String → Option ChatResponse) (out : NetOutcome) :
    Except GenError String :=
  match out with
  | .transportErr m => .error (.transport m)
  | .response status body =>
    if status < 200 ∨ 300 ≤ status then .error (.httpError status body)
    else
      match parse body with
      | none => .error .parseError
      | some r =>
        match r.choices with
        | [] => .error .noChoices
        | c :: _ => .ok c.message.content

/-- api.rs `generate_code_with_history`.  `envToken` is the value of the
HF_TOKEN environment variable; `net` is the HTTP oracle taking the
bearer token and the request body.  When the token is absent the
function fails with the configuration error before the network oracle
is ever consulted. -/
def generate_code_with_history (envToken : Option String)
    (net : String → ChatRequest → NetOutcome) (parse : String → Option ChatResponse)
    (messages : List Message) : Except GenError String :=
  match envToken with
  | none => .error .configMissingToken
  | some tok => processResponse parse (net tok (mkChatRequest messages))

/- ===================== interface.rs: the start_repl loop body ===================== -/

/-- Modelled from the spec: the process-lifetime counters
(total_requests, successful_executions, failed_executions, api_errors)
of §3 "Metrics".  The struct itself is declared in the logger module,
which is not among the provided sources; its four fields are exactly
those mutated in interface.rs. -/
structure SessionMetrics where
  totalRequests : Nat
  successfulExecutions : Nat
  failedExecutions : Nat
  apiErrors : Nat
deriving DecidableEq

/-- The mutable session state of start_repl: the conversation history,
the cached last generated code, and the metrics. -/
structure ReplState where
  history : List Message
  lastGeneratedCode : String
  metrics : SessionMetrics
deriving DecidableEq

/-- Whether the loop iteration falls through to the next iteration or
breaks out (only /quit and /exit break). -/
inductive LoopControl where
  | continueLoop
  | breakLoop
deriving DecidableEq

/-- The oracles consumed by one loop iteration: the reply to the
refinement prompt, the two y/n confirmations, the pip-install outcome,
and the write-and-run outcome for the extracted code.  (The /save branch
also reads a filename and writes a file; it never touches the session
state, so its oracles are omitted.) -/
structure StepEnv where
  refinementText : String
  confirmExec : Bool
  confirmInstall : Bool
  installOutcome : Except String Unit
  runScript : String → Except String CodeExecutionResult

/-- interface.rs line 215: an execution counts as successful when the
captured stderr is empty or does not contain the substring Error.  The
exit code is not consulted. -/
def execSuccess (r : CodeExecutionResult) : Bool :=
  r.stderr.data.isEmpty || !(hasSubstrStr "Error" r.stderr)

/-- interface.rs lines 198-241: dependency detection, optional install
(which only prints on failure), then write_and_run with the
success/failure counting.  Only the metrics change. -/
def applyExecution (env : StepEnv) (metrics : SessionMetrics) (code : String) :
    SessionMetrics :=
  if env.confirmExec then
    let _deps := detect_dependencies code
    match env.runScript code with
    | .ok r =>
      if execSuccess r then
        { metrics with successfulExecutions := metrics.successfulExecutions + 1 }
      else
        { metrics with failedExecutions := metrics.failedExecutions + 1 }
    | .error _ =>
      { metrics with failedExecutions := metrics.failedExecutions + 1 }
  else metrics

/-- interface.rs lines 176-251: the shared tail of both prompt kinds —
count the request, call the generation client with the history including
the just-appended user turn; on success extract the code, cache it,
append the assistant turn and maybe execute; on failure count the error
and pop the just-appended user turn. -/
def genPhase (env : StepEnv) (gen : List Message → Except GenError String)
    (st : ReplState) (hist1 : List Message) : ReplState × LoopControl :=
  let m1 := { st.metrics with totalRequests := st.metrics.totalRequests + 1 }
  match gen hist1 with
  | .ok raw =>
    let code := extract_python_code raw
    ({ history := hist1 ++ [⟨"assistant", code⟩]
       lastGeneratedCode := code
       metrics := applyExecution env m1 code }, .continueLoop)
  | .error _ =>
    ({ history := hist1.dropLast
       lastGeneratedCode := st.lastGeneratedCode
       metrics := { m1 with apiErrors := m1.apiErrors + 1 } }, .continueLoop)

/-- One iteration of the start_repl loop (interface.rs lines 66-252) on
the prompt read from the user. -/
def replStep (env : StepEnv) (gen : List Message → Except GenError String)
    (st : ReplState) (prompt : String) : ReplState × LoopControl :=
  if prompt = "/quit" ∨ prompt = "/exit" then (st, .breakLoop)
  else if prompt = "/help" then (st, .continueLoop)
  else if prompt = "/stats" then (st, .continueLoop)
  else if prompt = "/clear" then
    ({ history := [], lastGeneratedCode := "", metrics := st.metrics }, .continueLoop)
  else if prompt = "/history" then (st, .continueLoop)
  else if strStarts "/save" prompt then (st, .continueLoop)
  else if prompt = "/refine" then
    if st.lastGeneratedCode = "" then (st, .continueLoop)
    else
      let refinement := rustTrim env.refinementText
      if refinement = "" then (st, .continueLoop)
      else genPhase env gen st
        (st.history ++ [⟨"user", "Please refine the previous code: " ++ refinement⟩])
  else genPhase env gen st (st.history ++ [⟨"user", prompt⟩])

/-- No entry of the history carries the system role (the system turn is
synthesized inside generate_code_with_history, never stored). -/
def noSystemTurn (hist : List Message) : Bool :=
  hist.all (fun m => !(m.role == "system"))

/-- A prompt that reaches the plain-generation branch of the loop: not a
command. -/
def plainPrompt (p : String) : Bool :=
  !(p == "/quit" || p == "/exit" || p == "/help" || p == "/stats" ||
    p == "/clear" || p == "/history" || strStarts "/save" p || p == "/refine")

/- ===================== concrete values used by witnesses ===================== -/

/-- A step environment that confirms execution and runs the given
write-and-run oracle. -/
def envRun (run : String → Except String CodeExecutionResult) : StepEnv :=
  ⟨"", true, false, .ok (), run⟩

/-- A step environment that declines execution. -/
def envNoRun : StepEnv :=
  ⟨"", false, false, .ok (), fun _ => .error "unused"⟩

/-- A spawn oracle under which only `python3` can be spawned. -/
def spawnOnly3 : String → Except String SpawnOutput :=
  fun c => if c = "python3" then .ok ⟨"hello", "", some 0⟩ else .error "not found"

/- ===================== shared lemmas ===================== -/

theorem ws_ne_bt {c : Char} (h : wsChar c = true) : (btChar == c) = false := by
  simp only [wsChar, Bool.or_eq_true, decide_eq_true_eq] at h
  rcases h with ((((h | h) | h) | h) | h) | h <;> subst h <;> decide

theorem isPrefixOf_append_self : ∀ (l r : List Char), l.isPrefixOf (l ++ r) = true
  | [], _ => by simp [List.isPrefixOf]
  | c :: t, r => by
    simp only [List.cons_append, List.isPrefixOf, beq_self_eq_true, Bool.true_and]
    exact isPrefixOf_append_self t r

theorem hasSubstr_cons (p : List Char) (c : Char) (l : List Char) :
    hasSubstr p (c :: l) = (p.isPrefixOf (c :: l) || hasSubstr p l) := rfl

theorem hasSubstr_append_right {p l : List Char} (h : hasSubstr p l = true) :
    ∀ (x : List Char), hasSubstr p (x ++ l) = true
  | [] => h
  | c :: x' => by
    rw [List.cons_append, hasSubstr_cons, hasSubstr_append_right h x', Bool.or_true]

theorem closePat_prefix_cons {c : Char} {t : List Char}
    (h : closePat.isPrefixOf (c :: t) = true) : c = '\n' ∧ bt3.isPrefixOf t = true := by
  simp only [closePat, bt3, List.isPrefixOf, Bool.and_eq_true, beq_iff_eq] at h ⊢
  exact ⟨h.1.symm, h.2⟩

theorem bt3_prefix_append_closePat :
    ∀ (X r : List Char), bt3.isPrefixOf (X ++ (closePat ++ r)) = true → hasSubstr bt3 X = true
  | [], r, h => by
    simp only [List.nil_append, closePat, bt3, List.isPrefixOf, Bool.and_eq_true,
      beq_iff_eq] at h
    exact absurd h.1 (by decide)
  | [d], r, h => by
    simp only [List.cons_append, List.nil_append, closePat, bt3, List.isPrefixOf,
      Bool.and_eq_true, beq_iff_eq] at h
    exact absurd h.2.1 (by decide)
  | [d, e], r, h => by
    simp only [List.cons_append, List.nil_append, closePat, bt3, List.isPrefixOf,
      Bool.and_eq_true, beq_iff_eq] at h
    exact absurd h.2.2.1 (by decide)
  | d :: e :: f :: X'', r, h => by
    simp only [List.cons_append, bt3, List.isPrefixOf, Bool.and_eq_true, beq_iff_eq] at h
    obtain ⟨h1, h2, h3, _⟩ := h
    rw [hasSubstr_cons]
    have hpf : bt3.isPrefixOf (d :: e :: f :: X'') = true := by
      simp [bt3, List.isPrefixOf, ← h1, ← h2, ← h3]
    rw [hpf, Bool.true_or]

theorem findBody_boundary :
    ∀ (X r : List Char), hasSubstr bt3 X = false →
      findBody (X ++ (closePat ++ r)) = some X
  | [], r, _ => by
    have h1 : closePat.isPrefixOf (closePat ++ r) = true := isPrefixOf_append_self _ _
    rw [List.nil_append]
    rw [show closePat ++ r = '\n' :: (bt3 ++ r) from rfl]
    rw [findBody]
    rw [show ('\n' : Char) :: (bt3 ++ r) = closePat ++ r from rfl, h1]
    simp
  | c :: X', r, h => by
    have h' : hasSubstr bt3 X' = false := by
      rw [hasSubstr_cons] at h
      exact (Bool.or_eq_false_iff.mp h).2
    have hnp : closePat.isPrefixOf (c :: (X' ++ (closePat ++ r))) = false := by
      cases hch : closePat.isPrefixOf (c :: (X' ++ (closePat ++ r)))
      · rfl
      · exfalso
        obtain ⟨_, hbt⟩ := closePat_prefix_cons hch
        exact absurd (bt3_prefix_append_closePat _ _ hbt) (by simp [h'])
    rw [List.cons_append, findBody, hnp]
    simp only [Bool.false_eq_true, if_false]
    rw [findBody_boundary X' r h']
    rfl

theorem findBody_isSome_append :
    ∀ (U r : List Char), (findBody (U ++ (closePat ++ r))).isSome = true
  | [], r => by
    rw [List.nil_append, show closePat ++ r = '\n' :: (bt3 ++ r) from rfl, findBody,
      show ('\n' : Char) :: (bt3 ++ r) = closePat ++ r from rfl,
      isPrefixOf_append_self]
    simp
  | c :: U', r => by
    rw [List.cons_append, findBody]
    cases hch : closePat.isPrefixOf (c :: (U' ++ (closePat ++ r)))
    · simp only [Bool.false_eq_true, if_false]
      obtain ⟨y, hy⟩ := Option.isSome_iff_exists.mp (findBody_isSome_append U' r)
      rw [hy]
      rfl
    · simp


theorem findBody_ws_sound :
    ∀ {V : List Char}, allWs V → ∀ {b : List Char}, findBody (V ++ bt3) = some b → allWs b
  | [], _, b, h => by
    have : findBody ([] ++ bt3) = none := by decide
    rw [this] at h
    exact absurd h (by simp)
  | c :: V', hV, b, h => by
    have hWc : wsChar c = true := hV c (by simp)
    have hV' : allWs V' := fun d hd => hV d (by simp [hd])
    rw [List.cons_append, findBody] at h
    cases hch : closePat.isPrefixOf (c :: (V' ++ bt3))
    · rw [hch] at h
      simp only [Bool.false_eq_true, if_false] at h
      cases hfb : findBody (V' ++ bt3) with
      | none => rw [hfb] at h; exact absurd h (by simp)
      | some b' =>
        rw [hfb] at h
        simp at h
        subst h
        intro d hd
        rcases List.mem_cons.mp hd with h1 | h1
        · exact h1 ▸ hWc
        · exact findBody_ws_sound hV' hfb d h1
    · rw [hch] at h
      simp only [if_true] at h
      simp only [Option.some.injEq] at h
      subst h
      intro d hd
      exact absurd hd (List.not_mem_nil d)

theorem wsChar_bt_false : wsChar btChar = false := by decide

theorem tryTail_ws_sound :
    ∀ {V : List Char}, allWs V → ∀ {b : List Char}, tryTail (V ++ bt3) = some b → allWs b
  | [], _, b, h => by
    rw [List.nil_append, show bt3 = btChar :: [btChar, btChar] from rfl, tryTail] at h
    rw [wsChar_bt_false] at h
    simp at h
  | c :: V', hV, b, h => by
    have hWc : wsChar c = true := hV c (by simp)
    have hV' : allWs V' := fun d hd => hV d (by simp [hd])
    rw [List.cons_append, tryTail, hWc] at h
    simp only [if_true] at h
    cases ht : tryTail (V' ++ bt3) with
    | some b' =>
      rw [ht] at h
      simp only [Option.some.injEq] at h
      exact h ▸ tryTail_ws_sound hV' ht
    | none =>
      rw [ht] at h
      by_cases hcn : c = '\n'
      · rw [if_pos hcn] at h
        exact findBody_ws_sound hV' h
      · rw [if_neg hcn] at h
        exact absurd h (by simp)

theorem hasSubstr_ws_append :
    ∀ {W : List Char}, allWs W → ∀ {M : List Char}, hasSubstr bt3 M = false →
      hasSubstr bt3 (W ++ M) = false
  | [], _, M, hM => hM
  | c :: W', hW, M, hM => by
    have hWc : wsChar c = true := hW c (by simp)
    have hW' : allWs W' := fun d hd => hW d (by simp [hd])
    rw [List.cons_append, hasSubstr_cons]
    have h1 : bt3.isPrefixOf (c :: (W' ++ M)) = false := by
      simp only [bt3, List.isPrefixOf]
      rw [ws_ne_bt hWc]
      rfl
    rw [h1, hasSubstr_ws_append hW' hM]
    rfl

theorem tryTail_isSome (body post : List Char) :
    (tryTail ('\n' :: (body ++ (closePat ++ post)))).isSome = true := by
  rw [tryTail]
  rw [show wsChar '\n' = true from rfl]
  simp only [if_true]
  cases ht : tryTail (body ++ (closePat ++ post)) with
  | some b => simp
  | none =>
    simp only [if_pos rfl]
    exact findBody_isSome_append body post

theorem tryTail_main_sound :
    ∀ {W : List Char} {m : Char} {M₂ post b : List Char},
      allWs W → wsChar m = false → hasSubstr bt3 (m :: M₂) = false →
      tryTail (W ++ ((m :: M₂) ++ (closePat ++ post))) = some b →
      ∃ x, allWs x ∧ b = x ++ m :: M₂
  | [], m, M₂, post, b, _, hm, _, h => by
    rw [List.nil_append, List.cons_append, tryTail, hm] at h
    exact absurd h (by simp)
  | c :: W', m, M₂, post, b, hW, hm, hM, h => by
    have hWc : wsChar c = true := hW c (by simp)
    have hW' : allWs W' := fun d hd => hW d (by simp [hd])
    rw [List.cons_append, tryTail, hWc] at h
    simp only [if_true] at h
    cases ht : tryTail (W' ++ ((m :: M₂) ++ (closePat ++ post))) with
    | some b' =>
      rw [ht] at h
      simp only [Option.some.injEq] at h
      obtain ⟨x, hx, hb⟩ := tryTail_main_sound hW' hm hM ht
      exact ⟨x, hx, h ▸ hb⟩
    | none =>
      rw [ht] at h
      by_cases hcn : c = '\n'
      · rw [if_pos hcn] at h
        have hsub : hasSubstr bt3 (W' ++ (m :: M₂)) = false := hasSubstr_ws_append hW' hM
        have hfb : findBody ((W' ++ (m :: M₂)) ++ (closePat ++ post))
            = some (W' ++ (m :: M₂)) := findBody_boundary _ _ hsub
        rw [List.append_assoc] at hfb
        rw [hfb] at h
        simp only [Option.some.injEq] at h
        exact ⟨W', hW', by rw [← h]⟩
      · rw [if_neg hcn] at h
        exact absurd h (by simp)


theorem pythonTag_not_prefix_nl (tail : List Char) :
    pythonTag.isPrefixOf ('\n' :: tail) = false := by
  simp only [pythonTag, List.isPrefixOf]
  rw [show (('p' : Char) == '\n') = false from by decide]
  rfl

theorem tryTail_bt_cons (rest : List Char) : tryTail (btChar :: rest) = none := by
  rw [tryTail, wsChar_bt_false]
  rfl

theorem tryOpen_python {tail : List Char} (h : (tryTail tail).isSome = true) :
    tryOpen (bt3 ++ (pythonTag ++ tail)) = tryTail tail := by
  obtain ⟨b, hb⟩ := Option.isSome_iff_exists.mp h
  rw [show bt3 ++ (pythonTag ++ tail)
      = btChar :: btChar :: btChar :: (pythonTag ++ tail) from rfl]
  rw [tryOpen]
  rw [if_pos ⟨rfl, rfl, rfl⟩]
  rw [isPrefixOf_append_self]
  simp only [if_true]
  rw [show (pythonTag ++ tail).drop 6 = tail from List.drop_left' (by rfl)]
  rw [hb]

theorem tryOpen_nl (tail : List Char) :
    tryOpen (bt3 ++ ('\n' :: tail)) = tryTail ('\n' :: tail) := by
  rw [show bt3 ++ ('\n' :: tail) = btChar :: btChar :: btChar :: ('\n' :: tail) from rfl]
  rw [tryOpen]
  rw [if_pos ⟨rfl, rfl, rfl⟩]
  rw [pythonTag_not_prefix_nl]
  simp only [Bool.false_eq_true, if_false]

theorem tryOpen_pre_none :
    ∀ (c : Char) (pre' after : List Char), hasSubstr bt3 (c :: pre') = false →
      tryOpen (c :: (pre' ++ (bt3 ++ after))) = none
  | c, [], after, _ => by
    rw [List.nil_append,
      show c :: (bt3 ++ after) = c :: btChar :: btChar :: (btChar :: after) from rfl,
      tryOpen]
    by_cases hcb : c = btChar
    · rw [if_pos ⟨hcb, rfl, rfl⟩]
      rw [show pythonTag.isPrefixOf (btChar :: after) = false from by
        simp only [pythonTag, List.isPrefixOf]
        rw [show (('p' : Char) == btChar) = false from by decide]
        rfl]
      simp only [Bool.false_eq_true, if_false]
      exact tryTail_bt_cons after
    · rw [if_neg (fun hand => hcb hand.1)]
  | c, [d], after, _ => by
    rw [show c :: ([d] ++ (bt3 ++ after))
        = c :: d :: btChar :: (btChar :: btChar :: after) from rfl, tryOpen]
    by_cases hcb : c = btChar ∧ d = btChar ∧ btChar = btChar
    · rw [if_pos hcb]
      rw [show pythonTag.isPrefixOf (btChar :: btChar :: after) = false from by
        simp only [pythonTag, List.isPrefixOf]
        rw [show (('p' : Char) == btChar) = false from by decide]
        rfl]
      simp only [Bool.false_eq_true, if_false]
      exact tryTail_bt_cons _
    · rw [if_neg hcb]
  | c, d :: e :: pre'', after, h => by
    rw [show c :: ((d :: e :: pre'') ++ (bt3 ++ after))
        = c :: d :: e :: (pre'' ++ (bt3 ++ after)) from rfl, tryOpen]
    have hcb : ¬(c = btChar ∧ d = btChar ∧ e = btChar) := by
      intro ⟨h1, h2, h3⟩
      have : hasSubstr bt3 (c :: d :: e :: pre'') = true := by
        rw [hasSubstr_cons]
        have : bt3.isPrefixOf (c :: d :: e :: pre'') = true := by
          simp [bt3, List.isPrefixOf, h1, h2, h3]
        rw [this, Bool.true_or]
      rw [this] at h
      exact absurd h (by simp)
    rw [if_neg hcb]

theorem scan_skip :
    ∀ (pre after : List Char), hasSubstr bt3 pre = false →
      scanBlocks (pre ++ (bt3 ++ after)) = scanBlocks (bt3 ++ after)
  | [], _, _ => by rw [List.nil_append]
  | c :: pre', after, h => by
    have h' : hasSubstr bt3 pre' = false := by
      rw [hasSubstr_cons] at h
      exact (Bool.or_eq_false_iff.mp h).2
    rw [List.cons_append, scanBlocks, tryOpen_pre_none c pre' after h]
    exact scan_skip pre' after h'

theorem scan_fence_some {after b : List Char} (h : tryOpen (bt3 ++ after) = some b) :
    scanBlocks (bt3 ++ after) = some b := by
  rw [show bt3 ++ after = btChar :: (btChar :: btChar :: after) from rfl, scanBlocks]
  rw [show btChar :: btChar :: btChar :: after = bt3 ++ after from rfl, h]

theorem tryOpen_some_fence :
    ∀ {s b : List Char}, tryOpen s = some b → bt3.isPrefixOf s = true := by
  intro s b h
  match s with
  | [] => rw [show tryOpen [] = none from rfl] at h; exact absurd h (by simp)
  | [a] => rw [show tryOpen [a] = none from rfl] at h; exact absurd h (by simp)
  | [a, a'] => rw [show tryOpen [a, a'] = none from rfl] at h; exact absurd h (by simp)
  | a :: a' :: a'' :: rest =>
    rw [tryOpen] at h
    by_cases hcb : a = btChar ∧ a' = btChar ∧ a'' = btChar
    · simp [bt3, List.isPrefixOf, hcb.1, hcb.2.1, hcb.2.2]
    · rw [if_neg hcb] at h
      exact absurd h (by simp)

theorem scan_none : ∀ {l : List Char}, hasSubstr bt3 l = false → scanBlocks l = none
  | [], _ => rfl
  | c :: rest, h => by
    have h' : hasSubstr bt3 rest = false := by
      rw [hasSubstr_cons] at h
      exact (Bool.or_eq_false_iff.mp h).2
    rw [scanBlocks]
    cases hto : tryOpen (c :: rest) with
    | some b =>
      exfalso
      have := tryOpen_some_fence hto
      rw [hasSubstr_cons, this] at h
      exact absurd h (by simp)
    | none => exact scan_none h'


theorem dropWhile_ws_append :
    ∀ {x : List Char}, allWs x → ∀ (l : List Char),
      (x ++ l).dropWhile wsChar = l.dropWhile wsChar
  | [], _, _ => rfl
  | c :: x', hx, l => by
    have hc : wsChar c = true := hx c (by simp)
    have hx' : allWs x' := fun d hd => hx d (by simp [hd])
    rw [List.cons_append, List.dropWhile_cons, hc]
    simp only [if_true]
    exact dropWhile_ws_append hx' l

theorem trim_ws_prefix {x : List Char} (hx : allWs x) (l : List Char) :
    trimChars (x ++ l) = trimChars l := by
  unfold trimChars
  rw [dropWhile_ws_append hx]

theorem trim_allWs {l : List Char} (h : allWs l) : trimChars l = [] := by
  unfold trimChars
  rw [List.dropWhile_eq_nil_iff.mpr (fun c hc => h c hc)]
  rfl

theorem allWs_takeWhile (l : List Char) : allWs (l.takeWhile wsChar) :=
  fun _ hc => List.mem_takeWhile_imp hc

theorem dropWhile_head_false {p : Char → Bool} :
    ∀ {l : List Char} {m : Char} {M₂ : List Char},
      l.dropWhile p = m :: M₂ → p m = false
  | [], m, M₂, h => by simp at h
  | c :: t, m, M₂, h => by
    by_cases hc : p c = true
    · rw [List.dropWhile_cons, hc] at h
      simp only [if_true] at h
      exact dropWhile_head_false h
    · rw [List.dropWhile_cons] at h
      simp only [Bool.not_eq_true] at hc
      rw [hc] at h
      simp only [Bool.false_eq_true, if_false, List.cons.injEq] at h
      rw [← h.1]
      exact hc

theorem extract_block_core (pre tag body post : List Char)
    (hpre : hasSubstr bt3 pre = false)
    (htag : tag = pythonTag ∨ tag = [])
    (hbody : hasSubstr bt3 body = false)
    (hpost : (∃ c ∈ body, wsChar c = false) ∨ post = []) :
    ∃ b, scanBlocks (pre ++ (bt3 ++ (tag ++ ('\n' :: (body ++ (closePat ++ post)))))) = some b
      ∧ trimChars b = trimChars body := by
  have hTsome : (tryTail ('\n' :: (body ++ (closePat ++ post)))).isSome = true :=
    tryTail_isSome body post
  obtain ⟨b, hb⟩ := Option.isSome_iff_exists.mp hTsome
  have hopen : tryOpen (bt3 ++ (tag ++ ('\n' :: (body ++ (closePat ++ post))))) = some b := by
    rcases htag with h | h
    · subst h
      rw [tryOpen_python hTsome, hb]
    · subst h
      rw [List.nil_append, tryOpen_nl, hb]
  have hscan : scanBlocks (pre ++ (bt3 ++ (tag ++ ('\n' :: (body ++ (closePat ++ post))))))
      = some b := by
    rw [scan_skip pre _ hpre]
    exact scan_fence_some hopen
  refine ⟨b, hscan, ?_⟩
  by_cases hnw : ∃ c ∈ body, wsChar c = false
  · -- body has a non-whitespace character
    have hsplit := List.takeWhile_append_dropWhile (p := wsChar) (l := body)
    set W := body.takeWhile wsChar with hWdef
    set rest := body.dropWhile wsChar with hrestdef
    have hrest_ne : rest ≠ [] := by
      intro hnil
      obtain ⟨c, hc, hcw⟩ := hnw
      have : ∀ d ∈ body, wsChar d = true := List.dropWhile_eq_nil_iff.mp hnil
      rw [this c hc] at hcw
      exact absurd hcw (by simp)
    obtain ⟨m, M₂, hrest⟩ := List.exists_cons_of_ne_nil hrest_ne
    have hm : wsChar m = false := dropWhile_head_false (hrestdef.symm.trans hrest)
    have hMsub : hasSubstr bt3 (m :: M₂) = false := by
      cases hq : hasSubstr bt3 (m :: M₂)
      · rfl
      · exfalso
        have := hasSubstr_append_right hq W
        rw [← hrest, hsplit, hbody] at this
        exact absurd this (by simp)
    have hWall : allWs W := allWs_takeWhile body
    have harr : '\n' :: (body ++ (closePat ++ post))
        = ('\n' :: W) ++ ((m :: M₂) ++ (closePat ++ post)) := by
      rw [← hsplit, hrest]
      simp [List.append_assoc]
    have hWall2 : allWs ('\n' :: W) := by
      intro d hd
      rcases List.mem_cons.mp hd with h1 | h1
      · subst h1; rfl
      · exact hWall d h1
    rw [harr] at hb
    obtain ⟨x, hx, hbx⟩ := tryTail_main_sound hWall2 hm hMsub hb
    rw [hbx, trim_ws_prefix hx]
    rw [← hsplit, ← hrest, trim_ws_prefix hWall]
  · -- body is all whitespace, and post = []
    have hall : allWs body := by
      intro c hc
      by_contra hcc
      exact hnw ⟨c, hc, by simpa using hcc⟩
    have hpost' : post = [] := by
      rcases hpost with h | h
      · exact absurd h hnw
      · exact h
    subst hpost'
    have harr : '\n' :: (body ++ (closePat ++ []))
        = ('\n' :: (body ++ ['\n'])) ++ bt3 := by
      simp [closePat, List.append_assoc]
    rw [harr] at hb
    have hVall : allWs ('\n' :: (body ++ ['\n'])) := by
      intro d hd
      rcases List.mem_cons.mp hd with h1 | h1
      · subst h1; rfl
      · rcases List.mem_append.mp h1 with h2 | h2
        · exact hall d h2
        · rcases List.mem_singleton.mp h2 with h3
          subst h3; rfl
    have hball : allWs b := tryTail_ws_sound hVall hb
    rw [trim_allWs hball, trim_allWs hall]


theorem str_data_append (s t : String) : (s ++ t).data = s.data ++ t.data := rfl

theorem extract_fenced (pre tag body post : String)
    (hpre : hasSubstr bt3 pre.data = false)
    (htag : tag = "python" ∨ tag = "")
    (hbody : hasSubstr bt3 body.data = false)
    (hpost : (∃ c ∈ body.data, wsChar c = false) ∨ post = "") :
    extract_python_code (pre ++ "```" ++ tag ++ "\n" ++ body ++ "\n```" ++ post)
      = rustTrim body := by
  have htag' : tag.data = pythonTag ∨ tag.data = [] := by
    rcases htag with h | h <;> subst h
    · exact Or.inl rfl
    · exact Or.inr rfl
  have hpost' : (∃ c ∈ body.data, wsChar c = false) ∨ post.data = [] := by
    rcases hpost with h | h
    · exact Or.inl h
    · subst h
      exact Or.inr rfl
  obtain ⟨b, hscan, htrim⟩ :=
    extract_block_core pre.data tag.data body.data post.data hpre htag' hbody hpost'
  have hdata : (pre ++ "```" ++ tag ++ "\n" ++ body ++ "\n```" ++ post).data
      = pre.data ++ (bt3 ++ (tag.data ++ ('\n' :: (body.data ++ (closePat ++ post.data))))) := by
    simp only [str_data_append, List.append_assoc, List.cons_append, List.singleton_append,
      List.nil_append]
    rfl
  unfold extract_python_code
  rw [hdata, hscan]
  show String.mk (trimChars b) = rustTrim body
  unfold rustTrim
  rw [htrim]

theorem extract_no_fence {s : String} (h : hasSubstr bt3 s.data = false) :
    extract_python_code s = rustTrim s := by
  unfold extract_python_code
  rw [scan_none h]


theorem charToNat_inj {a b : Char} (h : a.toNat = b.toNat) : a = b := by
  have ha := Char.ofNat_toNat a
  have hb := Char.ofNat_toNat b
  rw [← ha, ← hb, h]

theorem listCharLe_total : ∀ {a b : List Char}, listCharLe a b = false → listCharLe b a = true
  | [], _, h => by simp [listCharLe] at h
  | _ :: _, [], _ => rfl
  | x :: xs, y :: ys, h => by
    simp only [listCharLe] at *
    by_cases hxy : x.toNat < y.toNat
    · simp [hxy] at h
    · by_cases hyx : y.toNat < x.toNat
      · simp [hyx]
      · simp only [if_neg hxy, if_neg hyx] at h
        simp only [if_neg hyx, if_neg hxy]
        exact listCharLe_total h

theorem listCharLe_trans :
    ∀ {a b c : List Char}, listCharLe a b = true → listCharLe b c = true → listCharLe a c = true
  | [], _, _, _, _ => rfl
  | _ :: _, [], _, h1, _ => by simp [listCharLe] at h1
  | _ :: _, _ :: _, [], _, h2 => by simp [listCharLe] at h2
  | x :: xs, y :: ys, z :: zs, h1, h2 => by
    simp only [listCharLe] at *
    by_cases hxy : x.toNat < y.toNat
    · by_cases hyz : y.toNat < z.toNat
      · simp [Nat.lt_trans hxy hyz]
      · by_cases hzy : z.toNat < y.toNat
        · simp [hyz, hzy] at h2
        · have : x.toNat < z.toNat := by omega
          simp [this]
    · by_cases hyx : y.toNat < x.toNat
      · simp [hxy, hyx] at h1
      · simp only [if_neg hxy, if_neg hyx] at h1
        by_cases hyz : y.toNat < z.toNat
        · have : x.toNat < z.toNat := by omega
          simp [this]
        · by_cases hzy : z.toNat < y.toNat
          · simp [hyz, hzy] at h2
          · simp only [if_neg hyz, if_neg hzy] at h2
            have hxz : ¬ x.toNat < z.toNat := by omega
            have hzx : ¬ z.toNat < x.toNat := by omega
            simp only [if_neg hxz, if_neg hzx]
            exact listCharLe_trans h1 h2

theorem listCharLe_antisymm :
    ∀ {a b : List Char}, listCharLe a b = true → listCharLe b a = true → a = b
  | [], [], _, _ => rfl
  | [], _ :: _, _, h2 => by simp [listCharLe] at h2
  | _ :: _, [], h1, _ => by simp [listCharLe] at h1
  | x :: xs, y :: ys, h1, h2 => by
    simp only [listCharLe] at h1 h2
    by_cases hxy : x.toNat < y.toNat
    · have : ¬ y.toNat < x.toNat := by omega
      simp [this, hxy] at h2
    · by_cases hyx : y.toNat < x.toNat
      · simp [hxy, hyx] at h1
      · simp only [if_neg hxy, if_neg hyx] at h1 h2
        have hx : x = y := charToNat_inj (by omega)
        rw [hx, listCharLe_antisymm h1 h2]

theorem strLe_total {a b : String} (h : strLe a b = false) : strLe b a = true :=
  listCharLe_total h

theorem strLe_trans {a b c : String} (h1 : strLe a b = true) (h2 : strLe b c = true) :
    strLe a c = true :=
  listCharLe_trans h1 h2

theorem strLe_antisymm {a b : String} (h1 : strLe a b = true) (h2 : strLe b a = true) : a = b := by
  cases a; cases b
  exact congrArg String.mk (listCharLe_antisymm h1 h2)

theorem mem_insertStr {a x : String} : ∀ {l : List String}, x ∈ insertStr a l → x = a ∨ x ∈ l
  | [], h => by
    simp [insertStr] at h
    exact Or.inl h
  | b :: t, h => by
    by_cases hab : strLe a b = true
    · simp only [insertStr, if_pos hab] at h
      rcases List.mem_cons.mp h with h1 | h1
      · exact Or.inl h1
      · exact Or.inr h1
    · simp only [insertStr, if_neg hab] at h
      rcases List.mem_cons.mp h with h1 | h1
      · exact Or.inr (by simp [h1])
      · rcases mem_insertStr h1 with h2 | h2
        · exact Or.inl h2
        · exact Or.inr (by simp [h2])

theorem pairwise_insertStr {a : String} :
    ∀ {l : List String}, l.Pairwise (fun u v => strLe u v = true) →
      (insertStr a l).Pairwise (fun u v => strLe u v = true)
  | [], _ => by simp [insertStr]
  | b :: t, h => by
    by_cases hab : strLe a b = true
    · simp only [insertStr, if_pos hab]
      refine List.Pairwise.cons ?_ h
      intro x hx
      rcases List.mem_cons.mp hx with h1 | h1
      · exact h1 ▸ hab
      · exact strLe_trans hab (List.rel_of_pairwise_cons h h1)
    · simp only [insertStr, if_neg hab]
      refine List.Pairwise.cons ?_ (pairwise_insertStr h.of_cons)
      intro x hx
      rcases mem_insertStr hx with h1 | h1
      · exact h1 ▸ strLe_total (by simpa using hab)
      · exact List.rel_of_pairwise_cons h h1

theorem pairwise_sortStrs : ∀ (l : List String), (sortStrs l).Pairwise (fun u v => strLe u v = true)
  | [] => by simp [sortStrs]
  | a :: t => by
    simp only [sortStrs]
    exact pairwise_insertStr (pairwise_sortStrs t)

theorem mem_dedupConsec {x : String} : ∀ {l : List String}, x ∈ dedupConsec l → x ∈ l
  | [], h => by simp [dedupConsec] at h
  | [a], h => by simpa [dedupConsec] using h
  | a :: b :: t, h => by
    by_cases hab : a = b
    · simp only [dedupConsec, if_pos hab] at h
      exact List.mem_cons_of_mem a (mem_dedupConsec h)
    · simp only [dedupConsec, if_neg hab] at h
      rcases List.mem_cons.mp h with h1 | h1
      · simp [h1]
      · exact List.mem_cons_of_mem a (mem_dedupConsec h1)

theorem pairwise_lt_dedupConsec :
    ∀ {l : List String}, l.Pairwise (fun u v => strLe u v = true) →
      (dedupConsec l).Pairwise (fun u v => strLe u v = true ∧ u ≠ v)
  | [], _ => by simp [dedupConsec]
  | [a], _ => by simp [dedupConsec]
  | a :: b :: t, h => by
    by_cases hab : a = b
    · simp only [dedupConsec, if_pos hab]
      exact pairwise_lt_dedupConsec h.of_cons
    · simp only [dedupConsec, if_neg hab]
      refine List.Pairwise.cons ?_ (pairwise_lt_dedupConsec h.of_cons)
      intro x hx
      have hx' := mem_dedupConsec hx
      have hle : strLe a x = true := by
        rcases List.mem_cons.mp hx' with h1 | h1
        · exact h1 ▸ List.rel_of_pairwise_cons h (by simp)
        · exact strLe_trans (List.rel_of_pairwise_cons h (by simp))
            (List.rel_of_pairwise_cons h.of_cons h1)
      refine ⟨hle, ?_⟩
      intro hax
      rcases List.mem_cons.mp hx' with h1 | h1
      · exact hab (hax.trans h1)
      · have hbx : strLe b x = true := List.rel_of_pairwise_cons h.of_cons h1
        have hba : strLe b a = true := hax ▸ hbx
        have hab2 : strLe a b = true := List.rel_of_pairwise_cons h (by simp)
        exact hab (strLe_antisymm hab2 hba)


theorem noSystem_dropLast {l : List Message} (h : noSystemTurn l = true) :
    noSystemTurn l.dropLast = true := by
  simp only [noSystemTurn, List.all_eq_true] at h ⊢
  intro m hm
  rw [List.dropLast_eq_take] at hm
  exact h m (List.take_subset _ _ hm)

theorem noSystem_genPhase (env : StepEnv) (gen : List Message → Except GenError String)
    (st : ReplState) (hist1 : List Message) (h : noSystemTurn hist1 = true) :
    noSystemTurn (genPhase env gen st hist1).1.history = true := by
  cases hg : gen hist1 with
  | ok raw =>
    simp only [genPhase, hg]
    simp only [noSystemTurn, List.all_append, List.all_cons, List.all_nil] at h ⊢
    simp [h]
  | error e =>
    simp only [genPhase, hg]
    exact noSystem_dropLast h

theorem noSystem_user_append {l : List Message} {s : String} (h : noSystemTurn l = true) :
    noSystemTurn (l ++ [⟨"user", s⟩]) = true := by
  simp only [noSystemTurn, List.all_append, List.all_cons, List.all_nil] at h ⊢
  simp [h]


/- ===================== claim theorems ===================== -/

/-- Claim C1 (amended): extract_python_code returns the trimmed inner
content of the first fenced block only when the opening fence carries
the tag `python` or no tag (the regex is ```(?:python)?\s*\n...), the
block content is not all-whitespace (or nothing follows the block), and
no stray triple backtick precedes the block; any other language tag is
not recognized.  Whenever the search finds no block — in particular for
any input containing no triple backtick — the whole input is returned
trimmed. -/
theorem extract_python_code_spec :
    (∀ pre tag body post : String,
       hasSubstr bt3 pre.data = false →
       (tag = "python" ∨ tag = "") →
       hasSubstr bt3 body.data = false →
       ((∃ c ∈ body.data, wsChar c = false) ∨ post = "") →
       extract_python_code (pre ++ "```" ++ tag ++ "\n" ++ body ++ "\n```" ++ post)
         = rustTrim body)
    ∧ (∀ s : String, hasSubstr bt3 s.data = false → extract_python_code s = rustTrim s) :=
  ⟨extract_fenced, fun _ h => extract_no_fence h⟩

/-- Claim C1 counterexample: a fenced block tagged `rust` is not
recognized (the whole input comes back instead of the inner content),
and a whitespace-only `python` block followed by a later fence makes the
lazy capture run past the block, so the claimed "inner content of the
first block, for any language tag" fails on both counts. -/
theorem extract_python_code_counterexample :
    extract_python_code "```rust\nlet x = 1;\n```" ≠ "let x = 1;"
    ∧ extract_python_code "```python\n\n```x\n```y" = "```x"
    ∧ ("```x" : String) ≠ "" :=
  ⟨by decide, by decide, by decide⟩

/-- Claim C1 witness: the amended theorem applied to a concrete
python-tagged block with surrounding prose. -/
theorem extract_python_code_spec_witness :
    hasSubstr bt3 ("Sure! " : String).data = false
    ∧ (("python" : String) = "python" ∨ ("python" : String) = "")
    ∧ hasSubstr bt3 ("print(1)" : String).data = false
    ∧ ((∃ c ∈ ("print(1)" : String).data, wsChar c = false) ∨ (" done" : String) = "")
    ∧ extract_python_code
        ("Sure! " ++ "```" ++ "python" ++ "\n" ++ "print(1)" ++ "\n```" ++ " done")
        = rustTrim "print(1)" :=
  ⟨by decide, Or.inl rfl, by decide, by decide,
    extract_python_code_spec.1 "Sure! " "python" "print(1)" " done"
      (by decide) (Or.inl rfl) (by decide) (by decide)⟩

/-- Claim C8: for every text T that contains no triple backtick,
extract_python_code applied to the fence opening "```python" plus a
newline, then T, then a newline and the closing fence, equals T trimmed
of surrounding whitespace. -/
theorem fenced_round_trip (T : String) (h : hasSubstr bt3 T.data = false) :
    extract_python_code ("```python\n" ++ T ++ "\n```") = rustTrim T := by
  obtain ⟨b, hscan, htrim⟩ :=
    extract_block_core [] pythonTag T.data [] (by decide) (Or.inl rfl) h (Or.inr rfl)
  have hdata : ("```python\n" ++ T ++ "\n```" : String).data
      = [] ++ (bt3 ++ (pythonTag ++ ('\n' :: (T.data ++ (closePat ++ []))))) := by
    simp only [str_data_append, List.append_assoc, List.cons_append, List.singleton_append,
      List.nil_append, List.append_nil]
    rfl
  unfold extract_python_code
  rw [hdata, hscan]
  show String.mk (trimChars b) = rustTrim T
  unfold rustTrim
  rw [htrim]

/-- Claim C8 witness: the round trip evaluated at a concrete body. -/
theorem fenced_round_trip_witness :
    hasSubstr bt3 ("print(2)" : String).data = false
    ∧ extract_python_code ("```python\n" ++ "print(2)" ++ "\n```") = rustTrim "print(2)" :=
  ⟨by decide, fenced_round_trip "print(2)" (by decide)⟩


/-- Claim C2 (code bug): two write_and_run_with_mode invocations at
distinct instants inside the same UTC second (here 0 ns and
500 000 000 ns after the epoch) derive the same `%Y%m%d_%H%M%S`
filename, so the later `fs::write` overwrites the earlier script —
contradicting the claimed fresh, distinct path per invocation, which
the code comment itself promises ("pour éviter les collisions"). -/
theorem write_and_run_same_second_collision :
    scriptPath "generated" 0 = scriptPath "generated" 500000000 ∧ (0 : Nat) ≠ 500000000 :=
  ⟨rfl, by decide⟩

/-- Claim C6: execute_script tries `python3` then `python`; the first
candidate that spawns is used and the later candidate is never
consulted; a spawn failure advances to the next candidate; and when
both fail, the call fails with the error message built from the last
spawn failure of the last candidate. -/
theorem interpreter_fallback_spec :
    (∀ (spawn : String → Except String SpawnOutput) (mode : ExecutionMode) (path : String) r,
       spawn "python3" = .ok r →
       execute_script spawn mode path = .ok (mkExecResult mode path r))
    ∧ (∀ (spawn : String → Except String SpawnOutput) (mode : ExecutionMode) (path : String) e r,
       spawn "python3" = .error e → spawn "python" = .ok r →
       execute_script spawn mode path = .ok (mkExecResult mode path r))
    ∧ (∀ (spawn : String → Except String SpawnOutput) (mode : ExecutionMode) (path : String) e1 e2,
       spawn "python3" = .error e1 → spawn "python" = .error e2 →
       execute_script spawn mode path = .error (spawnErrorMsg mode "python" e2)) := by
  refine ⟨?_, ?_, ?_⟩
  · intro spawn mode path r h
    simp [execute_script, executeScriptGo, python_cmds, h]
  · intro spawn mode path e r h1 h2
    simp [execute_script, executeScriptGo, python_cmds, h1, h2]
  · intro spawn mode path e1 e2 h1 h2
    simp [execute_script, executeScriptGo, python_cmds, h1, h2]

/-- Claim C6 witness: the first conjunct applied to a spawn oracle under
which only `python3` spawns. -/
theorem interpreter_fallback_spec_witness :
    spawnOnly3 "python3" = .ok ⟨"hello", "", some 0⟩
    ∧ execute_script spawnOnly3 .captured "generated/s.py"
        = .ok (mkExecResult .captured "generated/s.py" ⟨"hello", "", some 0⟩) :=
  ⟨rfl, interpreter_fallback_spec.1 spawnOnly3 .captured "generated/s.py" ⟨"hello", "", some 0⟩ rfl⟩

/-- Claim C9: the session loop counts a captured execution as successful
exactly when the recorded stderr is empty or lacks the substring Error;
the exit code plays no role (first conjunct: the classification depends
only on the stderr field).  Concretely, a run with empty stderr and exit
code 1 increments successful_executions, and a run printing Error on
stderr with exit code 0 increments failed_executions. -/
theorem execution_success_classification :
    (∀ p1 o1 e1 p2 o2 e2 err,
       execSuccess ⟨p1, o1, err, e1⟩ = execSuccess ⟨p2, o2, err, e2⟩)
    ∧ (∀ (st : ReplState) (raw : String),
       (replStep (envRun (fun _ => .ok ⟨"p", "", "", some 1⟩)) (fun _ => .ok raw) st "calc").1.metrics.successfulExecutions
         = st.metrics.successfulExecutions + 1
       ∧ (replStep (envRun (fun _ => .ok ⟨"p", "", "", some 1⟩)) (fun _ => .ok raw) st "calc").1.metrics.failedExecutions
         = st.metrics.failedExecutions)
    ∧ (∀ (st : ReplState) (raw : String),
       (replStep (envRun (fun _ => .ok ⟨"p", "out", "Error: NameError", some 0⟩)) (fun _ => .ok raw) st "calc").1.metrics.failedExecutions
         = st.metrics.failedExecutions + 1
       ∧ (replStep (envRun (fun _ => .ok ⟨"p", "out", "Error: NameError", some 0⟩)) (fun _ => .ok raw) st "calc").1.metrics.successfulExecutions
         = st.metrics.successfulExecutions) := by
  refine ⟨?_, ?_, ?_⟩
  · intro p1 o1 e1 p2 o2 e2 err
    rfl
  · intro st raw
    exact ⟨rfl, rfl⟩
  · intro st raw
    exact ⟨rfl, rfl⟩

/-- Claim C10: after a successful generation the cached last-generated
code and the appended assistant turn both equal the extracted code
(extract_python_code of the raw response), not the raw response; hence
the message list of the next request carries the sanitized code as the
prior assistant content. -/
theorem assistant_turn_sanitized :
    ∀ (st : ReplState) (raw : String),
      (replStep envNoRun (fun _ => .ok raw) st "calc").1.lastGeneratedCode
        = extract_python_code raw
      ∧ (replStep envNoRun (fun _ => .ok raw) st "calc").1.history
        = st.history ++ [⟨"user", "calc"⟩] ++ [⟨"assistant", extract_python_code raw⟩]
      ∧ (mkChatRequest (replStep envNoRun (fun _ => .ok raw) st "calc").1.history).messages
        = systemMessage ::
            (st.history ++ [⟨"user", "calc"⟩] ++ [⟨"assistant", extract_python_code raw⟩]) := by
  intro st raw
  exact ⟨rfl, rfl, rfl⟩

/-- Claim C7: dependency classification is a pure function of the code
text returning the deduplicated, lexicographically sorted imports absent
from the standard-library table: empty for "import os\nimport sys",
exactly numpy, pandas, requests for the mixed example; every result is
strictly ascending (sorted and duplicate-free), and equals the import
scan filtered by non-membership in the stdlib table. -/
theorem detect_dependencies_spec :
    detect_dependencies "import os\nimport sys" = []
    ∧ detect_dependencies "import numpy\nfrom pandas import DataFrame\nimport requests"
        = ["numpy", "pandas", "requests"]
    ∧ (∀ code : String,
        (detect_dependencies code).Pairwise (fun u v => strLe u v = true ∧ u ≠ v))
    ∧ (∀ code : String,
        detect_dependencies code = (extract_imports code).filter (fun pkg => !(is_stdlib pkg))) := by
  refine ⟨by decide, by decide, ?_, fun _ => rfl⟩
  intro code
  refine List.Pairwise.filter _ ?_
  unfold extract_imports
  exact pairwise_lt_dedupConsec (pairwise_sortStrs _)

/-- Claim C5: every generation call transmits exactly the fixed system
turn followed by the full accumulated history in order, with no
truncation (the message list of the request is the system message consed onto
the history); the system turn is synthesized at call time, and no
reachable session history ever stores a system-role entry (the loop
step preserves the no-system invariant). -/
theorem send_sequence_invariant :
    (∀ msgs : List Message, (mkChatRequest msgs).messages = systemMessage :: msgs)
    ∧ systemMessage.role = "system"
    ∧ (∀ (tok : String) (net : String → ChatRequest → NetOutcome)
         (parse : String → Option ChatResponse) (msgs : List Message),
         generate_code_with_history (some tok) net parse msgs
           = processResponse parse (net tok (mkChatRequest msgs)))
    ∧ (∀ (env : StepEnv) (gen : List Message → Except GenError String)
         (st : ReplState) (prompt : String),
         noSystemTurn st.history = true →
         noSystemTurn (replStep env gen st prompt).1.history = true) := by
  refine ⟨fun _ => rfl, rfl, fun _ _ _ _ => rfl, ?_⟩
  intro env gen st prompt h
  unfold replStep
  split_ifs with h1 h2 h3 h4 h5 h6 h7 h8
  · exact h
  · exact h
  · exact h
  · rfl
  · exact h
  · exact h
  · exact h
  · simp only []
    by_cases hre : rustTrim env.refinementText = ""
    · rw [if_pos hre]
      exact h
    · rw [if_neg hre]
      exact noSystem_genPhase _ _ _ _ (noSystem_user_append h)
  · exact noSystem_genPhase _ _ _ _ (noSystem_user_append h)

theorem send_sequence_invariant_witness :
    noSystemTurn (ReplState.mk [] "" ⟨0, 0, 0, 0⟩).history = true
    ∧ noSystemTurn
        (replStep envNoRun (fun _ => .ok "print(1)") (ReplState.mk [] "" ⟨0, 0, 0, 0⟩)
          "hello").1.history = true :=
  ⟨by decide, send_sequence_invariant.2.2.2 envNoRun _ _ "hello" (by decide)⟩

-- ===== C4 =====

/-- Claim C4: when the generation call fails after the user turn was
appended (either a plain prompt or a refine prompt), exactly the
just-appended turn is popped: the resulting history equals the history
before the append (so lengths agree and a retry cannot duplicate the
user turn), and the loop continues. -/
theorem rollback_on_generation_failure :
    (∀ (env : StepEnv) (gen : List Message → Except GenError String)
       (st : ReplState) (prompt : String) (e : GenError),
       plainPrompt prompt = true →
       gen (st.history ++ [⟨"user", prompt⟩]) = .error e →
       (replStep env gen st prompt).1.history = st.history
       ∧ (replStep env gen st prompt).1.history.length = st.history.length
       ∧ (replStep env gen st prompt).2 = .continueLoop)
    ∧ (∀ (env : StepEnv) (gen : List Message → Except GenError String)
       (st : ReplState) (e : GenError),
       st.lastGeneratedCode ≠ "" →
       rustTrim env.refinementText ≠ "" →
       gen (st.history ++
         [⟨"user", "Please refine the previous code: " ++ rustTrim env.refinementText⟩])
         = .error e →
       (replStep env gen st "/refine").1.history = st.history
       ∧ (replStep env gen st "/refine").2 = .continueLoop) := by
  constructor
  · intro env gen st prompt e hp hg
    simp only [plainPrompt, Bool.not_eq_true', Bool.or_eq_false_iff,
      beq_eq_false_iff_ne, ne_eq] at hp
    obtain ⟨⟨⟨⟨⟨⟨⟨hq, he⟩, hh⟩, hs⟩, hc⟩, hhi⟩, hsv⟩, hr⟩ := hp
    unfold replStep
    rw [if_neg (by tauto), if_neg hh, if_neg hs, if_neg hc, if_neg hhi,
      if_neg (by simp [hsv]), if_neg hr]
    simp [genPhase, hg, List.dropLast_concat]
  · intro env gen st e hcode href hg
    unfold replStep
    rw [if_neg (by decide), if_neg (by decide), if_neg (by decide), if_neg (by decide),
      if_neg (by decide), if_neg (by decide), if_pos rfl, if_neg hcode]
    simp only []
    rw [if_neg href]
    simp [genPhase, hg, List.dropLast_concat]

/-- Claim C4 witness: the rollback applied to a concrete failing
generation call on an empty session. -/
theorem rollback_on_generation_failure_witness :
    plainPrompt "hello" = true
    ∧ ((fun _ => (.error .parseError : Except GenError String))
        ((ReplState.mk [] "" ⟨0, 0, 0, 0⟩).history ++ [⟨"user", "hello"⟩]) = .error .parseError)
    ∧ (replStep envNoRun (fun _ => .error .parseError) (ReplState.mk [] "" ⟨0, 0, 0, 0⟩)
        "hello").1.history = (ReplState.mk [] "" ⟨0, 0, 0, 0⟩).history :=
  ⟨by decide, rfl,
    (rollback_on_generation_failure.1 envNoRun (fun _ => .error .parseError)
      (ReplState.mk [] "" ⟨0, 0, 0, 0⟩) "hello" .parseError (by decide) rfl).1⟩

-- ===== C3 =====

/-- Claim C3 counterexample: with the HF_TOKEN environment variable
absent, one loop iteration on a plain prompt does not abort the
process: it takes the ordinary recoverable error path — the request is
counted, api_errors is incremented, the user turn is rolled back, and
the loop continues. -/
theorem missing_token_recoverable_counterexample :
    replStep envNoRun
      (generate_code_with_history none (fun _ _ => .response 200 "") (fun _ => none))
      (ReplState.mk [] "" ⟨0, 0, 0, 0⟩) "make a snake game"
    = (ReplState.mk [] "" ⟨1, 0, 0, 1⟩, .continueLoop) := by
  decide

/-- Claim C3 (amended): when the bearer credential is absent the
generation call fails with the configuration error before any network
interaction (the result is the config error for every network oracle);
in the session loop this failure is handled like any generation error —
reported, the just-appended user turn rolled back, api_errors
incremented, loop continued — rather than aborting the process. -/
theorem missing_token_spec :
    (∀ (net : String → ChatRequest → NetOutcome) (parse : String → Option ChatResponse)
       (msgs : List Message),
       generate_code_with_history none net parse msgs = .error .configMissingToken)
    ∧ (∀ (env : StepEnv) (net : String → ChatRequest → NetOutcome)
         (parse : String → Option ChatResponse) (st : ReplState) (prompt : String),
       plainPrompt prompt = true →
       replStep env (generate_code_with_history none net parse) st prompt
         = ({ history := st.history
              lastGeneratedCode := st.lastGeneratedCode
              metrics := { totalRequests := st.metrics.totalRequests + 1
                           successfulExecutions := st.metrics.successfulExecutions
                           failedExecutions := st.metrics.failedExecutions
                           apiErrors := st.metrics.apiErrors + 1 } }, .continueLoop)) := by
  constructor
  · intro net parse msgs
    rfl
  · intro env net parse st prompt hp
    simp only [plainPrompt, Bool.not_eq_true', Bool.or_eq_false_iff,
      beq_eq_false_iff_ne, ne_eq] at hp
    obtain ⟨⟨⟨⟨⟨⟨⟨hq, he⟩, hh⟩, hs⟩, hc⟩, hhi⟩, hsv⟩, hr⟩ := hp
    unfold replStep
    rw [if_neg (by tauto), if_neg hh, if_neg hs, if_neg hc, if_neg hhi,
      if_neg (by simp [hsv]), if_neg hr]
    simp [genPhase, generate_code_with_history, List.dropLast_concat]

/-- Claim C3 witness: the amended per-call handling evaluated on a
concrete state and prompt. -/
theorem missing_token_spec_witness :
    plainPrompt "write a parser" = true
    ∧ replStep envNoRun
        (generate_code_with_history none (fun _ _ => .response 200 "") (fun _ => none))
        (ReplState.mk [] "" ⟨0, 0, 0, 0⟩) "write a parser"
      = (ReplState.mk [] "" ⟨1, 0, 0, 1⟩, .continueLoop) :=
  ⟨by decide,
    missing_token_spec.2 envNoRun (fun _ _ => .response 200 "") (fun _ => none)
      (ReplState.mk [] "" ⟨0, 0, 0, 0⟩) "write a parser" (by decide)⟩
